import Mathlib

/-!
Verification of the statistics module of a regularized GLM library
(`regularized_glm/stats.py`).

Two embeddings are used:

* a dynamic one — matrices are `List (List ℚ)` and the numpy operations are
  modelled as `Except`-valued functions that report the runtime shape errors
  numpy raises — used for `_weighted_design_matrix_svd`, whose behaviour is
  dominated by an indexing error;
* a typed one — `Matrix (Fin m) (Fin n) ℚ` from Mathlib — used for the pure
  linear-algebra functions (`get_effective_degrees_of_freedom`,
  `get_coefficient_covariance`).

Floating-point values produced by quiet division by zero are modelled by
`NpFloat` (a rational, `nan`, `inf` or `ninf`); all other arithmetic in the
source is exact over the inputs modelled here, so ℚ stands in for float.
-/

/-- A two-dimensional numpy array modelled as a list of rows of rationals. -/
abbrev Mat := List (List ℚ)

/-- The runtime errors the modelled numpy operations can raise. -/
inductive NpError
  /-- Shapes cannot be broadcast together. -/
  | broadcastMismatch
  /-- `np.concatenate` of arrays whose non-concatenation dimensions differ. -/
  | concatMismatch
  /-- `np.max` (`ndarray.max`) of an empty array raises `ValueError`. -/
  | emptyMax
  /-- A boolean index array whose length differs from the indexed dimension. -/
  | maskLengthMismatch
  /-- `IndexError`: too many indices for the array's number of dimensions. -/
  | tooManyIndices
deriving DecidableEq

/-- `X.shape[1]` for a 2-D array in the row-list model: the first row's width. -/
def npShape1 (X : Mat) : Nat := (X.headD []).length

/-- `w[:, np.newaxis] * X`: broadcast an `(n, 1)` column against the rows
of `X` (numpy broadcasting on the leading axis: equal, or either equal to 1). -/
def columnBroadcastMul (w : List ℚ) (X : Mat) : Except NpError Mat :=
  if w.length = X.length then
    .ok (List.zipWith (fun wi row => row.map (fun x => wi * x)) w X)
  else if w.length = 1 then
    .ok (X.map (fun row => row.map (fun x => w.headD 0 * x)))
  else if X.length = 1 then
    .ok (w.map (fun wi => (X.headD []).map (fun x => wi * x)))
  else .error .broadcastMismatch

/-- `np.concatenate((A, B))` along axis 0: rows are appended; every row must
have the common width. -/
def npConcatRows (A B : Mat) : Except NpError Mat :=
  let C := A ++ B
  if C.all (fun row => row.length = npShape1 C) then .ok C
  else .error .concatMismatch

/-- `v.max()` over a 1-D array; numpy raises `ValueError` on an empty array. -/
def npMax (v : List ℚ) : Except NpError ℚ :=
  match v with
  | [] => .error .emptyMax
  | x :: xs => .ok (xs.foldl max x)

/-- `A[:, mask]`: keep the columns selected by a boolean mask, whose length
must equal the number of columns. -/
def maskCols (A : Mat) (mask : List Bool) : Except NpError Mat :=
  if A.all (fun row => row.length = mask.length) then
    .ok (A.map (fun row =>
      (mask.zip row).filterMap (fun p => if p.1 then some p.2 else none)))
  else .error .maskLengthMismatch

/-- `A[:r, mask]`: keep the first `r` rows, then a boolean column mask. -/
def sliceRowsMaskCols (A : Mat) (r : Nat) (mask : List Bool) :
    Except NpError Mat :=
  maskCols (A.take r) mask

/-- `v[m1, m2]` for a ONE-dimensional array `v` and two index arrays: numpy
raises `IndexError` (too many indices for array: the array is 1-dimensional
but 2 were indexed), unconditionally, whatever the masks hold. -/
def maskIndex1DTwice (_v : List ℚ) (_m1 _m2 : List Bool) :
    Except NpError (List ℚ) :=
  .error .tooManyIndices

/-- The dense linear-algebra kernels the source calls are external LAPACK
routines (`np.sqrt`, `np.linalg.qr`, `np.linalg.svd`) together with the
machine epsilon of the singular values' dtype; they are passed as an oracle
parameter, since no claim depends on their numeric values. `qr` returns
`(Q, R)`; `svd` (economy mode) returns `(U, singular_values, Vt)` with
`singular_values` one-dimensional. -/
structure LinalgOracle where
  sqrt : ℚ → ℚ
  qr : Mat → Mat × Mat
  svd : Mat → Mat × List ℚ × Mat
  eps : ℚ

/-- `_weighted_design_matrix_svd(design_matrix, sqrt_penalty_matrix, weights)`,
line by line:
`_, R = np.linalg.qr(np.sqrt(weights[:, np.newaxis]) * design_matrix)`;
`U, singular_values, Vt = np.linalg.svd(np.concatenate((R, sqrt_penalty_matrix)), full_matrices=False)`;
`n_covariates = design_matrix.shape[1]`;
`svd_error = singular_values.max() * np.max(design_matrix.shape) * eps`;
`is_independent = singular_values > svd_error`;
`U = U[:n_covariates, is_independent]`;
`singular_values = singular_values[is_independent, is_independent]`;
`Vt = Vt[:, is_independent]`. -/
def weighted_design_matrix_svd (oc : LinalgOracle) (design_matrix : Mat)
    (sqrt_penalty_matrix : Mat) (weights : List ℚ) :
    Except NpError (Mat × List ℚ × Mat) := do
  let weighted ← columnBroadcastMul (weights.map oc.sqrt) design_matrix
  let R := (oc.qr weighted).2
  let stacked ← npConcatRows R sqrt_penalty_matrix
  let svdOut := oc.svd stacked
  let U0 := svdOut.1
  let singular_values := svdOut.2.1
  let Vt0 := svdOut.2.2
  let n_covariates := npShape1 design_matrix
  let svdMax ← npMax singular_values
  let svd_error :=
    svdMax * ((max design_matrix.length n_covariates : ℕ) : ℚ) * oc.eps
  let is_independent := singular_values.map (fun s => decide (svd_error < s))
  let U ← sliceRowsMaskCols U0 n_covariates is_independent
  let singular_values' ←
    maskIndex1DTwice singular_values is_independent is_independent
  let Vt ← maskCols Vt0 is_independent
  return (U, singular_values', Vt)

/-- The 3×3 identity matrix in the row-list model. -/
def identity3 : Mat := [[1, 0, 0], [0, 1, 0], [0, 0, 1]]

/-- An oracle giving the true numpy answers for the concrete scenario
`X = identity3`, `S` empty, `w = [1,1,1]`: `sqrt 1 = 1`, the QR of the
identity is `(I, I)`, the economy SVD of the identity is `(I, [1,1,1], I)`,
and `eps` is the double-precision machine epsilon `2⁻⁵²`. -/
def oracleId3 : LinalgOracle where
  sqrt := id
  qr := fun _ => (identity3, identity3)
  svd := fun _ => (identity3, [1, 1, 1], identity3)
  eps := 1 / 4503599627370496

/-- An IEEE double produced by the statistics functions: either an exact
rational value or one of the non-finite results of quiet division by zero.
All other operations performed by the source on the inputs modelled here are
exact. -/
inductive NpFloat
  /-- A finite value. -/
  | val (q : ℚ)
  /-- Not a number (for instance `0.0 / 0.0`). -/
  | nan
  /-- Positive infinity (for instance `1.0 / 0.0`). -/
  | inf
  /-- Negative infinity (for instance `-1.0 / 0.0`). -/
  | ninf
deriving DecidableEq

/-- IEEE addition restricted to the values `NpFloat` can hold. -/
def npAdd : NpFloat → NpFloat → NpFloat
  | .val a, .val b => .val (a + b)
  | .nan, _ => .nan
  | _, .nan => .nan
  | .inf, .ninf => .nan
  | .ninf, .inf => .nan
  | .inf, _ => .inf
  | _, .inf => .inf
  | .ninf, _ => .ninf
  | _, .ninf => .ninf

/-- IEEE division of two finite values: exact when the divisor is nonzero,
and the quiet `nan` / `±inf` results of numpy's zero division otherwise. -/
def npDivQ (num den : ℚ) : NpFloat :=
  if den = 0 then
    (if num = 0 then .nan else if 0 < num then .inf else .ninf)
  else .val (num / den)

/-- IEEE division of an `NpFloat` by a finite value (ℚ has only the positive
zero, so `inf / 0 = inf`). -/
def npDivF (x : NpFloat) (den : ℚ) : NpFloat :=
  match x with
  | .val a => npDivQ a den
  | .nan => .nan
  | .inf => if den < 0 then .ninf else .inf
  | .ninf => if den < 0 then .inf else .ninf

/-- `np.sum` over a 1-D array (exact, so the summation order is irrelevant). -/
def npSum (l : List NpFloat) : NpFloat := l.foldr npAdd (.val 0)

/-- Pair up two 1-D arrays under numpy broadcasting: equal lengths, or either
of length one. -/
def broadcastPair (a b : List ℚ) : Except NpError (List (ℚ × ℚ)) :=
  if a.length = b.length then .ok (a.zip b)
  else if a.length = 1 then .ok (b.map (fun x => (a.headD 0, x)))
  else if b.length = 1 then .ok (a.map (fun x => (x, b.headD 0)))
  else .error .broadcastMismatch

/-- `pearson_chi_square(response, predicted_response, prior_weights, variance,
degrees_of_freedom)`:
`residual = response - predicted_response`;
`residual_degrees_of_freedom = response.shape[0] - degrees_of_freedom`;
`chi_square = prior_weights * residual ** 2 / variance(predicted_response)`;
`return np.sum(chi_square) / residual_degrees_of_freedom`.
The `variance` callback of a statsmodels family acts elementwise. -/
def pearson_chi_square (response predicted_response prior_weights : List ℚ)
    (variance : ℚ → ℚ) (degrees_of_freedom : ℚ) : Except NpError NpFloat := do
  let residual ←
    (broadcastPair response predicted_response).map
      (List.map fun p => p.1 - p.2)
  let residual_degrees_of_freedom :=
    ((response.length : ℕ) : ℚ) - degrees_of_freedom
  let weighted_sq ←
    (broadcastPair prior_weights (residual.map (fun x => x ^ 2))).map
      (List.map fun p => p.1 * p.2)
  let chi_square ←
    (broadcastPair weighted_sq (predicted_response.map variance)).map
      (List.map fun p => npDivQ p.1 p.2)
  return npDivF (npSum chi_square) residual_degrees_of_freedom

/-- The response-distribution families of `statsmodels.api.families` that the
source dispatches on. -/
inductive FamilyKind
  | gaussian
  | binomial
  | poisson
  | gamma
  | inverseGaussian
  | negativeBinomial
  | tweedie
deriving DecidableEq

/-- A statsmodels family instance: its class together with its variance
function `variance(mu)`. -/
structure Family where
  kind : FamilyKind
  variance : ℚ → ℚ

/-- `isinstance(family, (families.Binomial, families.Poisson))`: in
statsmodels none of the other family classes is a subclass of these two, so
the check is exactly a match on the class. -/
def isinstanceBinomialPoisson (family : Family) : Bool :=
  match family.kind with
  | .binomial => true
  | .poisson => true
  | _ => false

/-- `families.Binomial()` with its variance `mu * (1 - mu)`. -/
def binomialFamily : Family := ⟨.binomial, fun mu => mu * (1 - mu)⟩

/-- `families.Poisson()` with its variance `mu`. -/
def poissonFamily : Family := ⟨.poisson, fun mu => mu⟩

/-- `families.Gaussian()` with its constant variance `1`. -/
def gaussianFamily : Family := ⟨.gaussian, fun _ => 1⟩

/-- `estimate_scale(family, response, predicted_response, prior_weights,
degrees_of_freedom)`: scale `1.0` (not estimated) for Binomial and Poisson,
otherwise Pearson's chi-square (estimated). -/
def estimate_scale (family : Family)
    (response predicted_response prior_weights : List ℚ)
    (degrees_of_freedom : ℚ) : Except NpError (NpFloat × Bool) :=
  if isinstanceBinomialPoisson family then .ok (.val 1, false)
  else
    (pearson_chi_square response predicted_response prior_weights
      family.variance degrees_of_freedom).map (fun scale => (scale, true))

/-- `estimate_aic(log_likelihood, degrees_of_freedom, is_estimated_scale)`:
`-2 * log_likelihood + 2 * (degrees_of_freedom + 1) + 2 * is_estimated_scale`,
a Python `bool` adding as `1` or `0`. -/
def estimate_aic (log_likelihood degrees_of_freedom : ℚ)
    (is_estimated_scale : Bool) : ℚ :=
  -2 * log_likelihood + 2 * (degrees_of_freedom + 1) +
    2 * (if is_estimated_scale then 1 else 0)

/-- `get_effective_degrees_of_freedom(U) = np.sum(U * U)`: the elementwise
square of `U`, summed over all entries. -/
def get_effective_degrees_of_freedom {m n : ℕ}
    (U : Matrix (Fin m) (Fin n) ℚ) : ℚ :=
  ∑ i, ∑ j, U i j * U i j

/-- `get_coefficient_covariance(U, singular_values, Vt, scale)`:
`PKt = Vt @ np.diag(1 / singular_values) @ U.T`;
`return PKt @ PKt.T * scale`. Note the first factor is `Vt` itself, not its
transpose. -/
def get_coefficient_covariance {nu nv k : ℕ} (U : Matrix (Fin nu) (Fin k) ℚ)
    (singular_values : Fin k → ℚ) (Vt : Matrix (Fin nv) (Fin k) ℚ)
    (scale : ℚ) : Matrix (Fin nv) (Fin nv) ℚ :=
  let PKt :=
    Vt * Matrix.diagonal (fun i => 1 / singular_values i) * U.transpose
  scale • (PKt * PKt.transpose)

/-- Modelled from the spec: the covariance algorithm as the specification
words it, `PKt = Vtᵗ · diag(1/singular_values) · Uᵗ` followed by
`PKt · PKtᵗ · scale` — the first factor is the TRANSPOSE of `Vt`. With the
spec's shapes (`U` of shape `p × k`, `Vt` of shape `k × p`) this is
well-typed when stated over square data, `p = k`. -/
def coefficient_covariance_spec {k : ℕ} (U : Matrix (Fin k) (Fin k) ℚ)
    (singular_values : Fin k → ℚ) (Vt : Matrix (Fin k) (Fin k) ℚ)
    (scale : ℚ) : Matrix (Fin k) (Fin k) ℚ :=
  let PKt :=
    Vt.transpose * Matrix.diagonal (fun i => 1 / singular_values i) *
      U.transpose
  scale • (PKt * PKt.transpose)

/-- The Pearson chi-square value as the claim states it:
`sum(prior_weights * (response - predicted)^2 / variance(predicted))`
divided by `n_observations - degrees_of_freedom`. -/
def pearson_chi_square_formula
    (response predicted_response prior_weights : List ℚ)
    (variance : ℚ → ℚ) (degrees_of_freedom : ℚ) : ℚ :=
  (List.zipWith (fun w rp => w * (rp.1 - rp.2) ^ 2 / variance rp.2)
      prior_weights (response.zip predicted_response)).sum /
    (((response.length : ℕ) : ℚ) - degrees_of_freedom)

/-- A right-singular-vector block that is not symmetric, used to separate the
source's covariance formula from the specification's. -/
def VtCx : Matrix (Fin 2) (Fin 2) ℚ := Matrix.of ![![0, 1], ![0, 0]]

lemma bind_isError {α β : Type} (x : Except NpError α)
    (f : α → Except NpError β) (h : ∀ a, ∃ e, f a = Except.error e) :
    ∃ e, x >>= f = Except.error e := by
  cases x with
  | error e => exact ⟨e, rfl⟩
  | ok a => exact h a

lemma weighted_design_matrix_svd_isError (oc : LinalgOracle) (X S : Mat)
    (w : List ℚ) : ∃ e, weighted_design_matrix_svd oc X S w = Except.error e := by
  unfold weighted_design_matrix_svd
  apply bind_isError; intro weighted
  apply bind_isError; intro stacked
  apply bind_isError; intro svdMax
  apply bind_isError; intro U
  exact ⟨.tooManyIndices, rfl⟩

lemma broadcastPair_eq_zip (a b : List ℚ) (h : a.length = b.length) :
    broadcastPair a b = .ok (a.zip b) := by
  simp [broadcastPair, h]

lemma npSum_map_val (l : List ℚ) :
    npSum (l.map NpFloat.val) = .val l.sum := by
  induction l with
  | nil => rfl
  | cons x xs ih =>
    show npAdd (NpFloat.val x) (npSum (xs.map NpFloat.val)) = _
    rw [ih]
    simp [npAdd, List.sum_cons]

lemma chi_square_list_eq (r p w : List ℚ) (variance : ℚ → ℚ)
    (h1 : p.length = r.length) (h2 : w.length = r.length)
    (hvar : ∀ x ∈ p, variance x ≠ 0) :
    (((w.zip (((r.zip p).map (fun q => q.1 - q.2)).map (fun x => x ^ 2))).map
          (fun q => q.1 * q.2)).zip (p.map variance)).map
        (fun q => npDivQ q.1 q.2) =
      (List.zipWith (fun wi rp => wi * (rp.1 - rp.2) ^ 2 / variance rp.2)
          w (r.zip p)).map NpFloat.val := by
  induction r generalizing p w with
  | nil =>
    have hp : p = [] := List.length_eq_zero.mp h1
    have hw : w = [] := List.length_eq_zero.mp h2
    subst hp; subst hw; rfl
  | cons a r ih =>
    cases p with
    | nil => simp at h1
    | cons b p =>
      cases w with
      | nil => simp at h2
      | cons c w =>
        have hb : variance b ≠ 0 := hvar b (by simp)
        simp only [List.zip_cons_cons, List.map_cons, List.zipWith_cons_cons]
        rw [npDivQ, if_neg hb]
        simp only [List.cons.injEq]
        refine ⟨by trivial, ?_⟩
        exact ih p w (by simpa using h1) (by simpa using h2)
          (fun x hx => hvar x (by simp [hx]))

lemma pearson_chi_square_eval (r p w : List ℚ) (variance : ℚ → ℚ) (dof : ℚ)
    (h1 : p.length = r.length) (h2 : w.length = r.length)
    (hvar : ∀ x ∈ p, variance x ≠ 0) :
    pearson_chi_square r p w variance dof =
      .ok (npDivQ
        (List.zipWith (fun wi rp => wi * (rp.1 - rp.2) ^ 2 / variance rp.2)
          w (r.zip p)).sum
        (((r.length : ℕ) : ℚ) - dof)) := by
  have hz1 : broadcastPair r p = .ok (r.zip p) :=
    broadcastPair_eq_zip r p h1.symm
  have hlen_res :
      (((r.zip p).map (fun q => q.1 - q.2)).map (fun x => x ^ 2)).length =
        r.length := by
    simp [List.length_zip, h1]
  have hz2 : broadcastPair w
      (((r.zip p).map (fun q => q.1 - q.2)).map (fun x => x ^ 2)) =
      .ok (w.zip (((r.zip p).map (fun q => q.1 - q.2)).map (fun x => x ^ 2))) :=
    broadcastPair_eq_zip _ _ (by rw [hlen_res, h2])
  have hlen_wsq :
      ((w.zip (((r.zip p).map (fun q => q.1 - q.2)).map (fun x => x ^ 2))).map
        (fun q => q.1 * q.2)).length = r.length := by
    simp [List.length_zip, List.length_map, h1, h2]
  have hz3 : broadcastPair
      ((w.zip (((r.zip p).map (fun q => q.1 - q.2)).map (fun x => x ^ 2))).map
        (fun q => q.1 * q.2)) (p.map variance) =
      .ok (((w.zip (((r.zip p).map (fun q => q.1 - q.2)).map
          (fun x => x ^ 2))).map (fun q => q.1 * q.2)).zip (p.map variance)) :=
    broadcastPair_eq_zip _ _ (by rw [hlen_wsq]; simp [h1])
  unfold pearson_chi_square
  rw [hz1]
  simp only [Except.map, Bind.bind, Except.bind]
  rw [hz2]
  simp only [Except.map, Bind.bind, Except.bind]
  rw [hz3]
  simp only [Except.map, Bind.bind, Except.bind]
  rw [chi_square_list_eq r p w variance h1 h2 hvar, npSum_map_val]
  rfl

lemma chi_self_sum_zero (r w : List ℚ) (variance : ℚ → ℚ) :
    (List.zipWith (fun wi rp => wi * (rp.1 - rp.2) ^ 2 / variance rp.2)
      w (r.zip r)).sum = 0 := by
  induction r generalizing w with
  | nil => simp
  | cons a r ih =>
    cases w with
    | nil => simp
    | cons c w => simp [List.zip_cons_cons, List.zipWith_cons_cons, ih]

/-- C1: for the input design matrix X equal to the 3×3 identity, penalty
square-root S equal to a 0×3 zero matrix, and weights w = [1,1,1], the
decompose operation does NOT return a decomposition: it raises numpy's
`IndexError` (too many indices) at the line
`singular_values[is_independent, is_independent]`, with the true
linear-algebra oracle for this input (and with any other oracle as well), so
`effective_degrees_of_freedom` is never reached. This contradicts the claim,
which expects 3 retained components with unit singular values; the code is
the slip, as its own docstring promises a returned `(U, singular_values,
Vt)` triple. -/
theorem decompose_identity_scenario_raises :
    weighted_design_matrix_svd oracleId3 identity3 [] [1, 1, 1] =
      Except.error NpError.tooManyIndices ∧
    ∀ oc : LinalgOracle, ∃ e,
      weighted_design_matrix_svd oc identity3 [] [1, 1, 1] = Except.error e :=
  ⟨by rfl, fun oc => weighted_design_matrix_svd_isError oc identity3 [] [1, 1, 1]⟩

/-- C2: for every input (design matrix, penalty square-root, weights) and
every behaviour of the external linear-algebra kernels,
`_weighted_design_matrix_svd` raises an exception and never returns a
decomposition: the line `singular_values[is_independent, is_independent]`
indexes a one-dimensional array with two index arrays, which numpy always
rejects, and any input that does not reach that line has already failed at an
earlier operation. -/
theorem decompose_always_raises (oc : LinalgOracle) (X S : Mat) (w : List ℚ) :
    ∃ e, weighted_design_matrix_svd oc X S w = Except.error e :=
  weighted_design_matrix_svd_isError oc X S w

/-- C3 counterexample: at U = I₂, singular_values = (1, 1),
Vt = [[0,1],[0,0]], scale = 1, the covariance computed by the code (which
uses `Vt` as the first factor of PKt) differs from the one prescribed by the
spec (which uses `Vtᵗ`), so the claimed algorithm `PKt = Vtᵗ · diag(1/s) · Uᵗ`
is not what the code computes. -/
theorem coefficient_covariance_spec_mismatch :
    get_coefficient_covariance (1 : Matrix (Fin 2) (Fin 2) ℚ) (fun _ => 1)
        VtCx 1 ≠
      coefficient_covariance_spec (1 : Matrix (Fin 2) (Fin 2) ℚ) (fun _ => 1)
        VtCx 1 := by
  intro h
  have hc : get_coefficient_covariance (1 : Matrix (Fin 2) (Fin 2) ℚ)
      (fun _ => 1) VtCx 1 = VtCx * VtCx.transpose := by
    simp [get_coefficient_covariance, Matrix.diagonal_one, Matrix.transpose_one]
  have hs : coefficient_covariance_spec (1 : Matrix (Fin 2) (Fin 2) ℚ)
      (fun _ => 1) VtCx 1 = VtCx.transpose * VtCx := by
    simp [coefficient_covariance_spec, Matrix.diagonal_one, Matrix.transpose_one]
  rw [hc, hs] at h
  have h00 := congrFun (congrFun h 0) 0
  simp [VtCx, Matrix.mul_apply, Fin.sum_univ_two, Matrix.transpose_apply] at h00

/-- C3 amended: `get_coefficient_covariance` forms
`PKt = Vt · diag(1/singular_values) · Uᵗ` — multiplying by `Vt` itself, not
its transpose — and returns `PKt · PKtᵗ · scale`; the result is square with
side the row count of `Vt` (the type of the statement), hence
n_covariates × n_covariates for a `Vt` block carried in the code's
(n_covariates × n_independent) orientation. -/
theorem coefficient_covariance_code_formula {nu nv k : ℕ}
    (U : Matrix (Fin nu) (Fin k) ℚ) (s : Fin k → ℚ)
    (Vt : Matrix (Fin nv) (Fin k) ℚ) (scale : ℚ) :
    get_coefficient_covariance U s Vt scale =
      scale • ((Vt * Matrix.diagonal (fun i => 1 / s i) * U.transpose) *
        (U * Matrix.diagonal (fun i => 1 / s i) * Vt.transpose)) := by
  simp [get_coefficient_covariance, Matrix.transpose_mul,
    Matrix.transpose_transpose, Matrix.diagonal_transpose, Matrix.mul_assoc]

/-- C4 counterexample: for response = [3], predicted = [3], prior weights
[1], the identity variance function and degrees_of_freedom = 1 (so
n_observations == degrees_of_freedom), `pearson_chi_square` does not fail: it
quietly divides 0 by 0 and returns NaN. -/
theorem pearson_chi_square_degenerate_returns :
    pearson_chi_square [3] [3] [1] id 1 = .ok NpFloat.nan := by
  simp [pearson_chi_square, broadcastPair, npDivQ, npDivF, npSum, npAdd,
    Except.map, List.zip, Bind.bind, Except.bind, Pure.pure, Except.pure]

/-- C4 amended: `pearson_chi_square` has no degenerate-residual-dof guard.
When n_observations equals degrees_of_freedom it divides by zero and returns
a quiet non-finite float instead of failing; with a zero residual (response
equal to predicted) and nonzero variances the result is exactly NaN (0/0). -/
theorem pearson_chi_square_degenerate_nan (r w : List ℚ) (variance : ℚ → ℚ)
    (dof : ℚ) (h2 : w.length = r.length) (hvar : ∀ x ∈ r, variance x ≠ 0)
    (hdof : dof = ((r.length : ℕ) : ℚ)) :
    pearson_chi_square r r w variance dof = .ok NpFloat.nan := by
  rw [pearson_chi_square_eval r r w variance dof rfl h2 hvar,
    chi_self_sum_zero, hdof]
  simp [npDivQ]

/-- Witness for `pearson_chi_square_degenerate_nan` at response = predicted
= [5], prior weights [2], identity variance, degrees_of_freedom = 1. -/
theorem pearson_chi_square_degenerate_nan_witness :
    pearson_chi_square [5] [5] [2] id 1 = .ok NpFloat.nan :=
  pearson_chi_square_degenerate_nan [5] [2] id 1 (by rfl)
    (by intro x hx; simp at hx; simp [hx]) (by norm_num)

/-- C5: for response, predicted and prior-weight vectors of one common length
n, any variance function that is nonzero at the predicted values (so that the
claimed quotient is meaningful), and degrees_of_freedom ≠ n,
`pearson_chi_square` returns exactly
`sum(prior_weights * (response - predicted)² / variance(predicted)) / (n -
degrees_of_freedom)`. -/
theorem pearson_chi_square_formula_correct (r p w : List ℚ)
    (variance : ℚ → ℚ) (dof : ℚ) (h1 : p.length = r.length)
    (h2 : w.length = r.length) (hdof : dof ≠ ((r.length : ℕ) : ℚ))
    (hvar : ∀ x ∈ p, variance x ≠ 0) :
    pearson_chi_square r p w variance dof =
      .ok (.val (pearson_chi_square_formula r p w variance dof)) := by
  rw [pearson_chi_square_eval r p w variance dof h1 h2 hvar]
  have hne : ((r.length : ℕ) : ℚ) - dof ≠ 0 :=
    sub_ne_zero.mpr (fun hh => hdof hh.symm)
  rw [npDivQ, if_neg hne]
  rfl

/-- Witness for `pearson_chi_square_formula_correct` at the spec's concrete
scenario response = predicted = [2,4,6], prior weights [1,1,1], identity
variance, degrees_of_freedom = 1: the statistic is exactly 0. -/
theorem pearson_chi_square_formula_witness :
    pearson_chi_square [2, 4, 6] [2, 4, 6] [1, 1, 1] id 1 = .ok (.val 0) := by
  have h := pearson_chi_square_formula_correct [2, 4, 6] [2, 4, 6] [1, 1, 1]
    id 1 rfl rfl (by norm_num) (by intro x hx; simp at hx; rcases hx with h | h | h <;> simp [h])
  have hf : pearson_chi_square_formula [2, 4, 6] [2, 4, 6] [1, 1, 1] id 1 = 0 := by
    norm_num [pearson_chi_square_formula, List.zip]
  rw [h, hf]

/-- C6: `estimate_scale` returns exactly (1.0, false) when the family is
Binomial or Poisson, regardless of the data, and for every other family it
returns Pearson's chi-square of the data paired with true. -/
theorem estimate_scale_dispatch (family : Family) (r p w : List ℚ)
    (dof : ℚ) :
    ((family.kind = FamilyKind.binomial ∨ family.kind = FamilyKind.poisson) →
      estimate_scale family r p w dof = .ok (.val 1, false)) ∧
    (family.kind ≠ FamilyKind.binomial → family.kind ≠ FamilyKind.poisson →
      estimate_scale family r p w dof =
        (pearson_chi_square r p w family.variance dof).map
          (fun s => (s, true))) := by
  constructor
  · rintro (h | h) <;> simp [estimate_scale, isinstanceBinomialPoisson, h]
  · intro hb hp
    have hfix : isinstanceBinomialPoisson family = false := by
      cases hk : family.kind <;>
        first
          | exact absurd hk hb
          | exact absurd hk hp
          | simp [isinstanceBinomialPoisson, hk]
    simp [estimate_scale, hfix]

/-- Witness for `estimate_scale_dispatch`: a Binomial family gives
(1.0, false) whatever the data, and a Gaussian family defers to
`pearson_chi_square` with the estimated flag set. -/
theorem estimate_scale_dispatch_witness :
    estimate_scale binomialFamily [1] [1] [1] 0 = .ok (.val 1, false) ∧
    estimate_scale gaussianFamily [2, 4, 6] [2, 4, 6] [1, 1, 1] 1 =
      (pearson_chi_square [2, 4, 6] [2, 4, 6] [1, 1, 1]
        gaussianFamily.variance 1).map (fun s => (s, true)) :=
  ⟨(estimate_scale_dispatch binomialFamily [1] [1] [1] 0).1 (Or.inl rfl),
   (estimate_scale_dispatch gaussianFamily [2, 4, 6] [2, 4, 6] [1, 1, 1] 1).2
     (by simp [gaussianFamily]) (by simp [gaussianFamily])⟩

/-- C7: `estimate_aic` returns exactly
`-2·log_likelihood + 2·(degrees_of_freedom + 1) + 2·is_estimated_scale`, the
boolean counting as 1 when true and 0 when false. -/
theorem estimate_aic_formula (ll dof : ℚ) (b : Bool) :
    estimate_aic ll dof b =
      -2 * ll + 2 * (dof + 1) + 2 * (if b then 1 else 0) ∧
    estimate_aic ll dof true = -2 * ll + 2 * (dof + 1) + 2 ∧
    estimate_aic ll dof false = -2 * ll + 2 * (dof + 1) :=
  ⟨rfl, by norm_num [estimate_aic], by norm_num [estimate_aic]⟩

/-- C8: for every matrix U, `get_effective_degrees_of_freedom` returns the
sum of the squares of every element of U, a non-negative scalar equal to the
trace of U·Uᵗ. -/
theorem effective_degrees_of_freedom_sum_squares {m n : ℕ}
    (U : Matrix (Fin m) (Fin n) ℚ) :
    get_effective_degrees_of_freedom U = (∑ i, ∑ j, (U i j) ^ 2) ∧
    0 ≤ get_effective_degrees_of_freedom U ∧
    get_effective_degrees_of_freedom U = Matrix.trace (U * U.transpose) := by
  refine ⟨by simp [get_effective_degrees_of_freedom, pow_two], ?_, ?_⟩
  · exact Finset.sum_nonneg fun i _ =>
      Finset.sum_nonneg fun j _ => mul_self_nonneg _
  · simp [get_effective_degrees_of_freedom, Matrix.trace, Matrix.mul_apply,
      Matrix.diag, Matrix.transpose_apply]

/-- C9 counterexample: a negative scale is accepted: at U = Vt = I₁,
singular_values = (1) and scale = -1, `get_coefficient_covariance` returns
the matrix -I₁ instead of failing with an InvalidScale condition. -/
theorem coefficient_covariance_negative_scale_returns :
    get_coefficient_covariance (1 : Matrix (Fin 1) (Fin 1) ℚ) (fun _ => 1)
        (1 : Matrix (Fin 1) (Fin 1) ℚ) (-1) =
      -(1 : Matrix (Fin 1) (Fin 1) ℚ) := by
  simp [get_coefficient_covariance, Matrix.diagonal_one, Matrix.transpose_one]

/-- C9 amended: `get_coefficient_covariance` performs no validation of the
scale argument: for every input it is defined and equals scale times the
covariance at scale one, so a negative scale simply produces a negated
covariance rather than an InvalidScale failure. -/
theorem coefficient_covariance_no_scale_validation {nu nv k : ℕ}
    (U : Matrix (Fin nu) (Fin k) ℚ) (s : Fin k → ℚ)
    (Vt : Matrix (Fin nv) (Fin k) ℚ) (scale : ℚ) :
    get_coefficient_covariance U s Vt scale =
      scale • get_coefficient_covariance U s Vt 1 := by
  simp [get_coefficient_covariance]

/-- C10: the matrix returned by `get_coefficient_covariance` is symmetric —
it equals its own transpose exactly — for every U, singular_values, Vt and
scale. -/
theorem coefficient_covariance_symmetric {nu nv k : ℕ}
    (U : Matrix (Fin nu) (Fin k) ℚ) (s : Fin k → ℚ)
    (Vt : Matrix (Fin nv) (Fin k) ℚ) (scale : ℚ) :
    (get_coefficient_covariance U s Vt scale).transpose =
      get_coefficient_covariance U s Vt scale := by
  simp [get_coefficient_covariance, Matrix.transpose_smul,
    Matrix.transpose_mul, Matrix.transpose_transpose, Matrix.mul_assoc]
